import Mathlib

/-!
Shallow embedding of the PulseSynth audio-analysis core.

The analysis core lives in `src/offscreen.ts`: a spectral sampler bound to a
live audio source fills a `Uint8Array` of 128 magnitude bins (values 0..255);
`analyzeAudio` reduces one such frame to three band averages plus an overall
energy figure and smooths each with an exponential moving average against the
previous smoothed state.  Magnitudes are modelled as natural numbers and the
derived averages as exact rationals.  The background service worker
(capture start/stop coordination) is embedded as a state machine over an
explicit system state.
-/

namespace PulseSynth

/-- EMA smoothing factor (`SMOOTHING_ALPHA = 0.3` in offscreen.ts). -/
def SMOOTHING_ALPHA : ℚ := 0.3

/-- End of the bass bin range (`BASS_END_BIN = 2` in offscreen.ts). -/
def BASS_END_BIN : ℕ := 2

/-- End of the mids bin range (`MIDS_END_BIN = 24` in offscreen.ts). -/
def MIDS_END_BIN : ℕ := 24

/-- FFT size configured on the analyser node (`analyserNode.fftSize = 256`). -/
def fftSize : ℕ := 256

/-- Bin count of the analyser; the frequency buffer is allocated with this
length (`new Uint8Array(analyserNode.frequencyBinCount)`). -/
def frequencyBinCount : ℕ := fftSize / 2

/-- The `AudioBands` record returned by `analyzeAudio`. -/
structure AudioBands where
  bass : ℚ
  mids : ℚ
  highs : ℚ
  energy : ℚ
deriving DecidableEq, Repr

/-- The module-level mutable state of offscreen.ts: which nullable resources
are currently present, and the four smoothed EMA values. -/
structure OffscreenState where
  hasMediaStream : Bool
  hasSourceNode : Bool
  hasAnalyser : Bool
  hasAudioContext : Bool
  hasFrequencyData : Bool
  hasInterval : Bool
  smoothedBass : ℚ
  smoothedMids : ℚ
  smoothedHighs : ℚ
  smoothedEnergy : ℚ
deriving DecidableEq, Repr

/-- The state at module load: every nullable is null, smoothed values zero. -/
def initOffscreenState : OffscreenState :=
  ⟨false, false, false, false, false, false, 0, 0, 0, 0⟩

/-- The state right after a successful `startAudioStream`: all resources
present, smoothed values still at their reset value zero. -/
def startedState : OffscreenState :=
  ⟨true, true, true, true, true, true, 0, 0, 0, 0⟩

/-- The sum `for (let i = start; i < end; i++) sum += data[i]` of
`getAverageInRange`, over the index list `[start, start+count)`. -/
def sumRange (data : List ℕ) (start count : ℕ) : ℕ :=
  ((List.range' start count).map (fun i => data.getD i 0)).sum

/-- `getAverageInRange(data, start, end)` from offscreen.ts:
average of the bins in `[start, end)` normalised to `[0,1]`, and `0` when the
range holds no bins (`count > 0 ? sum / count / 255 : 0`). -/
def getAverageInRange (data : List ℕ) (start stop : ℕ) : ℚ :=
  let count := stop - start
  if 0 < count then (sumRange data start count : ℚ) / (count : ℚ) / 255 else 0

/-- `smooth(current, previous)` from offscreen.ts: the EMA step. -/
def smooth (current previous : ℚ) : ℚ :=
  SMOOTHING_ALPHA * current + (1 - SMOOTHING_ALPHA) * previous

/-- `rawBass` as computed inside `analyzeAudio`. -/
def rawBass (data : List ℕ) : ℚ := getAverageInRange data 0 BASS_END_BIN

/-- `rawMids` as computed inside `analyzeAudio`. -/
def rawMids (data : List ℕ) : ℚ := getAverageInRange data BASS_END_BIN MIDS_END_BIN

/-- `rawHighs` as computed inside `analyzeAudio` (`binCount = data.length`). -/
def rawHighs (data : List ℕ) : ℚ := getAverageInRange data MIDS_END_BIN data.length

/-- `rawEnergy` as computed inside `analyzeAudio`: the loop
`for (let i = 0; i < binCount; i++) totalEnergy += data[i]` followed by
`totalEnergy / binCount / 255`. -/
def rawEnergy (data : List ℕ) : ℚ :=
  (sumRange data 0 data.length : ℚ) / (data.length : ℚ) / 255

/-- `analyzeAudio()` from offscreen.ts.  The frame read from the analyser is
passed explicitly; when the analyser node or the frequency buffer is absent it
returns the neutral bands and leaves the state untouched, otherwise it
computes the four raw values, smooths each against the stored state, stores
the results and returns them. -/
def analyzeAudio (frame : List ℕ) (s : OffscreenState) : AudioBands × OffscreenState :=
  if s.hasAnalyser && s.hasFrequencyData then
    let sb := smooth (rawBass frame) s.smoothedBass
    let sm := smooth (rawMids frame) s.smoothedMids
    let sh := smooth (rawHighs frame) s.smoothedHighs
    let se := smooth (rawEnergy frame) s.smoothedEnergy
    (⟨sb, sm, sh, se⟩,
      { s with smoothedBass := sb, smoothedMids := sm,
               smoothedHighs := sh, smoothedEnergy := se })
  else
    (⟨0, 0, 0, 0⟩, s)

/-- `stopAudioStream()` from offscreen.ts: releases every audio resource and
resets the four smoothed values to zero. -/
def stopAudioStream (s : OffscreenState) : OffscreenState :=
  { s with hasMediaStream := false, hasSourceNode := false, hasAnalyser := false,
           hasAudioContext := false, hasFrequencyData := false,
           smoothedBass := 0, smoothedMids := 0,
           smoothedHighs := 0, smoothedEnergy := 0 }

/-- `stopAudioDataStream()` from offscreen.ts: clears the tick interval. -/
def stopAudioDataStream (s : OffscreenState) : OffscreenState :=
  { s with hasInterval := false }

/-- The `STOP_AUDIO_STREAM` handler: `stopAudioDataStream(); stopAudioStream()`. -/
def stopAll (s : OffscreenState) : OffscreenState :=
  stopAudioStream (stopAudioDataStream s)

/-- Iterating the analysis over a list of frames, threading the state. -/
def runTicks (frames : List (List ℕ)) (s : OffscreenState) : OffscreenState :=
  frames.foldl (fun st f => (analyzeAudio f st).2) s

/-- A valid `FrequencyFrame` of the data model: 128 bins, magnitudes 0..255. -/
def validFrame (f : List ℕ) : Prop :=
  f.length = frequencyBinCount ∧ ∀ x ∈ f, x ≤ 255

instance (f : List ℕ) : Decidable (validFrame f) := by
  unfold validFrame; infer_instance

/-- A rational lies in the unit interval. -/
def inUnit (x : ℚ) : Prop := 0 ≤ x ∧ x ≤ 1

instance (x : ℚ) : Decidable (inUnit x) := by
  unfold inUnit; infer_instance

/-- All four smoothed fields of the offscreen state lie in `[0,1]`. -/
def boundedState (s : OffscreenState) : Prop :=
  inUnit s.smoothedBass ∧ inUnit s.smoothedMids ∧
    inUnit s.smoothedHighs ∧ inUnit s.smoothedEnergy

instance (s : OffscreenState) : Decidable (boundedState s) := by
  unfold boundedState; infer_instance

/-- All four fields of an `AudioBands` value lie in `[0,1]`. -/
def boundedBands (b : AudioBands) : Prop :=
  inUnit b.bass ∧ inUnit b.mids ∧ inUnit b.highs ∧ inUnit b.energy

instance (b : AudioBands) : Decidable (boundedBands b) := by
  unfold boundedBands; infer_instance

/-- The energy-independence frame of the spec: all bins 255 except bins 0
and 1, which are 0. -/
def exampleFrame : List ℕ := List.replicate 2 0 ++ List.replicate 126 255

/-- The sublist of bins actually lying in the range `[start, stop)`. -/
def bandSlice (data : List ℕ) (start stop : ℕ) : List ℕ :=
  (data.drop start).take (stop - start)

/-- Restatement of the wording of the spec for a band value: compute the
arithmetic mean of the raw magnitudes, then normalize by dividing by the
maximum possible magnitude (255).  Stated over the slice of bins in the
range, to be compared with `getAverageInRange`. -/
def specBandMean (data : List ℕ) (start stop : ℕ) : ℚ :=
  ((bandSlice data start stop).sum : ℚ) / ((bandSlice data start stop).length : ℚ) / 255

/-- The smoothed value after `n` ticks of constant raw input `r`, starting
from previous smoothed value `s0`. -/
def smoothIter (r s0 : ℚ) : ℕ → ℚ
  | 0 => s0
  | n + 1 => smooth r (smoothIter r s0 n)

/-- Background service worker state (`background.ts`): the `isCapturing`
flag, whether the offscreen sampler currently holds a live binding to the
audio source, and how many live bindings have been overwritten without being
released (leaked). -/
structure CaptureSystem where
  isCapturing : Bool
  bound : Bool
  leaked : ℕ
deriving DecidableEq, Repr

/-- Worker state at service start: not capturing, nothing bound. -/
def initCapture : CaptureSystem := ⟨false, false, 0⟩

/-- Effect of the offscreen `startAudioStream` on bindings: a fresh binding to
the audio source is created; a previous still-live binding would be
overwritten without release, i.e. leaked. -/
def bindSource (s : CaptureSystem) : CaptureSystem :=
  { s with bound := true, leaked := s.leaked + if s.bound then 1 else 0 }

/-- Effect of the offscreen `stopAudioStream` on bindings: the current
binding is released. -/
def releaseSource (s : CaptureSystem) : CaptureSystem :=
  { s with bound := false }

/-- `stopCapture()` from the background worker: when capturing, tell the
offscreen document to stop (releasing its binding) and clear the flag;
otherwise nothing to stop. -/
def stopCapture (s : CaptureSystem) : CaptureSystem :=
  if s.isCapturing then { releaseSource s with isCapturing := false } else s

/-- The background worker function `startCapture(tabId)`, success path: check
if already capturing and stop first, then have the offscreen document bind
the source and set the flag. -/
def startCapture (s : CaptureSystem) : CaptureSystem :=
  let s1 := if s.isCapturing then stopCapture s else s
  { bindSource s1 with isCapturing := true }

/-- Requests arriving at the `onMessage` boundary of the background worker: a
start-capture request (`ok` tells whether the offscreen start would succeed)
or a stop-capture request. -/
inductive CaptureEvent
  | startReq (ok : Bool)
  | stopReq
deriving DecidableEq, Repr

/-- The `onMessage` handler for `START_CAPTURE` / `STOP_CAPTURE`: a start
request while capturing is ignored as a duplicate; a failed start creates no
binding and resets the flag. -/
def handleEvent (s : CaptureSystem) : CaptureEvent → CaptureSystem
  | .startReq true => if s.isCapturing then s else startCapture s
  | .startReq false => if s.isCapturing then s else { s with isCapturing := false }
  | .stopReq => stopCapture s

/-- Running a sequence of requests from the initial worker state. -/
def runCapture (es : List CaptureEvent) : CaptureSystem :=
  es.foldl handleEvent initCapture

/-- Number of simultaneously live bindings to the audio source. -/
def liveBindings (s : CaptureSystem) : ℕ :=
  (if s.bound then 1 else 0) + s.leaked

/-- Invariant of the capture system: nothing leaked, and a binding is live
exactly while the worker believes it is capturing. -/
def CapInv (s : CaptureSystem) : Prop :=
  s.leaked = 0 ∧ s.bound = s.isCapturing

instance (s : CaptureSystem) : Decidable (CapInv s) := by
  unfold CapInv; infer_instance

/-- Every buffer index read by `analyzeAudio` on a full frame: the three
band loops of `getAverageInRange` (over `[0, BASS_END_BIN)`,
`[BASS_END_BIN, MIDS_END_BIN)`, `[MIDS_END_BIN, binCount)`) and the energy
loop (over `[0, binCount)`), with `binCount = frequencyBinCount`. -/
def accessedIndices : List ℕ :=
  List.range' 0 (BASS_END_BIN - 0) ++
    List.range' BASS_END_BIN (MIDS_END_BIN - BASS_END_BIN) ++
    List.range' MIDS_END_BIN (frequencyBinCount - MIDS_END_BIN) ++
    List.range frequencyBinCount

/-! ### Helper lemmas about `sumRange` -/

theorem sumRange_zero (data : List ℕ) (start : ℕ) : sumRange data start 0 = 0 := rfl

theorem sumRange_succ (data : List ℕ) (start count : ℕ) :
    sumRange data start (count + 1) = data.getD start 0 + sumRange data (start + 1) count := by
  simp [sumRange, List.range'_succ]

theorem getD_le_of_forall_le (data : List ℕ) (i : ℕ) (h : ∀ x ∈ data, x ≤ 255) :
    data.getD i 0 ≤ 255 := by
  by_cases hi : i < data.length
  · rw [List.getD_eq_getElem?_getD, List.getElem?_eq_getElem hi]
    exact h _ (List.getElem_mem hi)
  · rw [List.getD_eq_default _ _ (Nat.le_of_not_lt hi)]
    exact Nat.zero_le 255

theorem sumRange_le (data : List ℕ) (h : ∀ x ∈ data, x ≤ 255) :
    ∀ count start, sumRange data start count ≤ count * 255 := by
  intro count
  induction count with
  | zero => intro start; simp [sumRange_zero]
  | succ c ih =>
      intro start
      rw [sumRange_succ]
      have h1 := getD_le_of_forall_le data start h
      have h2 := ih (start + 1)
      omega

theorem sumRange_eq_slice (data : List ℕ) :
    ∀ count start, start + count ≤ data.length →
      sumRange data start count = ((data.drop start).take count).sum := by
  intro count
  induction count with
  | zero => intro start _; simp [sumRange_zero]
  | succ c ih =>
      intro start hle
      have hs : start < data.length := by omega
      rw [sumRange_succ, List.drop_eq_getElem_cons hs, List.take_succ_cons, List.sum_cons,
        List.getD_eq_getElem?_getD, List.getElem?_eq_getElem hs, Option.getD_some]
      have := ih (start + 1) (by omega)
      omega

theorem sumRange_all (data : List ℕ) : sumRange data 0 data.length = data.sum := by
  rw [sumRange_eq_slice data data.length 0 (by omega)]
  simp

/-! ### Bounds for the raw band values -/

theorem getAverageInRange_nonneg (data : List ℕ) (start stop : ℕ) :
    0 ≤ getAverageInRange data start stop := by
  unfold getAverageInRange
  by_cases h : 0 < stop - start
  · simp only [h, if_true]
    positivity
  · simp [h]

theorem getAverageInRange_le_one (data : List ℕ) (start stop : ℕ)
    (h : ∀ x ∈ data, x ≤ 255) : getAverageInRange data start stop ≤ 1 := by
  unfold getAverageInRange
  by_cases hc : 0 < stop - start
  · simp only [hc, if_true]
    rw [div_div, div_le_one (by positivity)]
    have hle := sumRange_le data h (stop - start) start
    calc (sumRange data start (stop - start) : ℚ) ≤ ((stop - start) * 255 : ℕ) := by
          exact_mod_cast hle
      _ = (stop - start : ℕ) * 255 := by push_cast; ring
  · simp [hc]

theorem getAverageInRange_inUnit (data : List ℕ) (start stop : ℕ)
    (h : ∀ x ∈ data, x ≤ 255) : inUnit (getAverageInRange data start stop) :=
  ⟨getAverageInRange_nonneg data start stop, getAverageInRange_le_one data start stop h⟩

theorem rawEnergy_inUnit (data : List ℕ) (h : ∀ x ∈ data, x ≤ 255) :
    inUnit (rawEnergy data) := by
  unfold rawEnergy inUnit
  rcases Nat.eq_zero_or_pos data.length with hl | hl
  · rw [hl]
    norm_num
  · constructor
    · positivity
    · rw [div_div, div_le_one (by positivity)]
      have hle := sumRange_le data h data.length 0
      calc (sumRange data 0 data.length : ℚ) ≤ (data.length * 255 : ℕ) := by exact_mod_cast hle
        _ = (data.length : ℕ) * 255 := by push_cast; ring

theorem smooth_inUnit {c p : ℚ} (hc : inUnit c) (hp : inUnit p) : inUnit (smooth c p) := by
  obtain ⟨hc0, hc1⟩ := hc
  obtain ⟨hp0, hp1⟩ := hp
  unfold smooth SMOOTHING_ALPHA
  constructor <;> norm_num <;> nlinarith

/-! ### One analysis tick preserves the `[0,1]` bounds -/

theorem analyzeAudio_step_bounded (frame : List ℕ) (s : OffscreenState)
    (hmag : ∀ x ∈ frame, x ≤ 255) (hs : boundedState s) :
    boundedBands (analyzeAudio frame s).1 ∧ boundedState (analyzeAudio frame s).2 := by
  obtain ⟨h1, h2, h3, h4⟩ := hs
  unfold analyzeAudio
  by_cases hb : s.hasAnalyser && s.hasFrequencyData
  · simp only [hb, if_true]
    have hB := smooth_inUnit (getAverageInRange_inUnit frame 0 BASS_END_BIN hmag) h1
    have hM := smooth_inUnit (getAverageInRange_inUnit frame BASS_END_BIN MIDS_END_BIN hmag) h2
    have hH := smooth_inUnit (getAverageInRange_inUnit frame MIDS_END_BIN frame.length hmag) h3
    have hE := smooth_inUnit (rawEnergy_inUnit frame hmag) h4
    exact ⟨⟨hB, hM, hH, hE⟩, ⟨hB, hM, hH, hE⟩⟩
  · simp only [hb, if_false]
    have h0 : inUnit (0 : ℚ) := by norm_num [inUnit]
    exact ⟨⟨h0, h0, h0, h0⟩, h1, h2, h3, h4⟩

theorem runTicks_cons (f : List ℕ) (fs : List (List ℕ)) (s : OffscreenState) :
    runTicks (f :: fs) s = runTicks fs (analyzeAudio f s).2 := rfl

theorem runTicks_bounded (frames : List (List ℕ)) :
    ∀ s : OffscreenState, boundedState s → (∀ f ∈ frames, ∀ x ∈ f, x ≤ 255) →
      boundedState (runTicks frames s) := by
  induction frames with
  | nil => intro s hs _; exact hs
  | cons f fs ih =>
      intro s hs hfs
      rw [runTicks_cons]
      exact ih _ (analyzeAudio_step_bounded f s (hfs f (by simp)) hs).2
        (fun g hg => hfs g (by simp [hg]))

theorem initOffscreenState_bounded : boundedState initOffscreenState := by
  norm_num [boundedState, inUnit, initOffscreenState]

/-! ### EMA iteration: error recurrence -/

theorem smoothIter_error (r s0 : ℚ) :
    ∀ n : ℕ, r - smoothIter r s0 n = (7 / 10) ^ n * (r - s0) := by
  intro n
  induction n with
  | zero => simp [smoothIter]
  | succ n ih =>
      show r - smooth r (smoothIter r s0 n) = _
      unfold smooth SMOOTHING_ALPHA
      linear_combination (7 / 10 : ℚ) * ih

theorem smoothIter_one_zero (n : ℕ) : smoothIter 1 0 n = 1 - (7 / 10) ^ n := by
  have := smoothIter_error 1 0 n
  linarith

/-! ### Capture state machine: invariant preservation -/

theorem handleEvent_inv (s : CaptureSystem) (e : CaptureEvent)
    (h : CapInv s) : CapInv (handleEvent s e) := by
  obtain ⟨hleak, hbound⟩ := h
  cases e with
  | startReq ok =>
      cases ok <;> by_cases hc : s.isCapturing = true <;>
        simp_all [handleEvent, startCapture, stopCapture, bindSource, releaseSource, CapInv]
  | stopReq =>
      by_cases hc : s.isCapturing = true <;>
        simp_all [handleEvent, stopCapture, releaseSource, CapInv]

theorem foldl_handleEvent_inv (es : List CaptureEvent) :
    ∀ s : CaptureSystem, CapInv s → CapInv (es.foldl handleEvent s) := by
  induction es with
  | nil => intro s hs; exact hs
  | cons e es ih =>
      intro s hs
      exact ih _ (handleEvent_inv s e hs)

theorem runCapture_inv (es : List CaptureEvent) : CapInv (runCapture es) :=
  foldl_handleEvent_inv es initCapture (by decide)

/-! ### Claim theorems -/

/-- Claim C1: for every frequency frame with magnitudes in 0..255 and every
previous smoothed state with all four fields in `[0,1]`, the `AudioBands`
returned by `analyzeAudio` has each of `bass, mids, highs, energy` in
`[0,1]`, the raw pre-smoothing values are each in `[0,1]`, and — by induction
from the all-zero initial state — the smoothed state stays in `[0,1]` across
any sequence of valid ticks. -/
theorem analyzeAudio_output_in_unit_interval
    (frame : List ℕ) (s : OffscreenState) (frames : List (List ℕ))
    (hf : validFrame frame) (hs : boundedState s)
    (hfs : ∀ f ∈ frames, validFrame f) :
    boundedBands (analyzeAudio frame s).1 ∧ boundedState (analyzeAudio frame s).2 ∧
      inUnit (rawBass frame) ∧ inUnit (rawMids frame) ∧
      inUnit (rawHighs frame) ∧ inUnit (rawEnergy frame) ∧
      boundedState (runTicks frames initOffscreenState) := by
  obtain ⟨-, hmag⟩ := hf
  obtain ⟨hb1, hb2⟩ := analyzeAudio_step_bounded frame s hmag hs
  exact ⟨hb1, hb2,
    getAverageInRange_inUnit frame 0 BASS_END_BIN hmag,
    getAverageInRange_inUnit frame BASS_END_BIN MIDS_END_BIN hmag,
    getAverageInRange_inUnit frame MIDS_END_BIN frame.length hmag,
    rawEnergy_inUnit frame hmag,
    runTicks_bounded frames initOffscreenState initOffscreenState_bounded
      (fun f hmem x hx => (hfs f hmem).2 x hx)⟩

set_option maxRecDepth 8000 in
/-- Witness for C1 at the concrete energy-independence frame. -/
theorem analyzeAudio_output_in_unit_interval_witness :
    boundedBands (analyzeAudio exampleFrame startedState).1 ∧
      boundedState (analyzeAudio exampleFrame startedState).2 ∧
      inUnit (rawBass exampleFrame) ∧ inUnit (rawMids exampleFrame) ∧
      inUnit (rawHighs exampleFrame) ∧ inUnit (rawEnergy exampleFrame) ∧
      boundedState (runTicks [exampleFrame] initOffscreenState) :=
  analyzeAudio_output_in_unit_interval exampleFrame startedState [exampleFrame]
    (by decide) (by decide) (by decide)

/-- Claim C2: each tick smooths every raw value with
`smoothed = 0.3·raw + 0.7·previous`, independently for bass, mids, highs and
energy, and the four values returned by one extraction are exactly the stored
previous-smoothed inputs of the next extraction. -/
theorem smooth_ema_step_and_state_threading
    (r p : ℚ) (frame : List ℕ) (s : OffscreenState)
    (ha : s.hasAnalyser = true) (hd : s.hasFrequencyData = true) :
    smooth r p = 3 / 10 * r + 7 / 10 * p ∧
    (analyzeAudio frame s).1.bass = smooth (rawBass frame) s.smoothedBass ∧
    (analyzeAudio frame s).1.mids = smooth (rawMids frame) s.smoothedMids ∧
    (analyzeAudio frame s).1.highs = smooth (rawHighs frame) s.smoothedHighs ∧
    (analyzeAudio frame s).1.energy = smooth (rawEnergy frame) s.smoothedEnergy ∧
    (analyzeAudio frame s).2.smoothedBass = (analyzeAudio frame s).1.bass ∧
    (analyzeAudio frame s).2.smoothedMids = (analyzeAudio frame s).1.mids ∧
    (analyzeAudio frame s).2.smoothedHighs = (analyzeAudio frame s).1.highs ∧
    (analyzeAudio frame s).2.smoothedEnergy = (analyzeAudio frame s).1.energy := by
  constructor
  · unfold smooth SMOOTHING_ALPHA
    norm_num
  · simp [analyzeAudio, ha, hd]

/-- Witness for C2 at concrete inputs. -/
theorem smooth_ema_step_and_state_threading_witness :
    smooth (1 / 2) (1 / 4) = 3 / 10 * (1 / 2) + 7 / 10 * (1 / 4) ∧
    (analyzeAudio [] startedState).1.bass = smooth (rawBass []) startedState.smoothedBass ∧
    (analyzeAudio [] startedState).1.mids = smooth (rawMids []) startedState.smoothedMids ∧
    (analyzeAudio [] startedState).1.highs = smooth (rawHighs []) startedState.smoothedHighs ∧
    (analyzeAudio [] startedState).1.energy = smooth (rawEnergy []) startedState.smoothedEnergy ∧
    (analyzeAudio [] startedState).2.smoothedBass = (analyzeAudio [] startedState).1.bass ∧
    (analyzeAudio [] startedState).2.smoothedMids = (analyzeAudio [] startedState).1.mids ∧
    (analyzeAudio [] startedState).2.smoothedHighs = (analyzeAudio [] startedState).1.highs ∧
    (analyzeAudio [] startedState).2.smoothedEnergy = (analyzeAudio [] startedState).1.energy :=
  smooth_ema_step_and_state_threading (1 / 2) (1 / 4) [] startedState rfl rfl

/-- Claim C3: for a bin range `[start, stop)` inside the frame, the raw band
value of a non-empty range is the arithmetic mean of the magnitudes in the
range divided by 255, and a range with zero bins (for example `bassEnd = 0`)
yields exactly 0 with no division by zero. -/
theorem getAverageInRange_normalized_mean (data : List ℕ) (start stop : ℕ)
    (h : stop ≤ data.length) :
    (start < stop → getAverageInRange data start stop = specBandMean data start stop) ∧
    (stop ≤ start → getAverageInRange data start stop = 0) ∧
    getAverageInRange data 0 0 = 0 := by
  refine ⟨?_, ?_, ?_⟩
  · intro hlt
    have hcount : 0 < stop - start := by omega
    have hsum : sumRange data start (stop - start) = (bandSlice data start stop).sum := by
      rw [sumRange_eq_slice data (stop - start) start (by omega)]
      rfl
    have hslice : (bandSlice data start stop).length = stop - start := by
      unfold bandSlice
      rw [List.length_take, List.length_drop]
      omega
    unfold getAverageInRange specBandMean
    simp only [hsum, hslice, if_pos hcount]
  · intro hle
    have hcount : stop - start = 0 := by omega
    unfold getAverageInRange
    simp [hcount]
  · simp [getAverageInRange]

/-- Witness for C3 at a concrete frame and ranges. -/
theorem getAverageInRange_normalized_mean_witness :
    ((0 : ℕ) < 2 → getAverageInRange [10, 20, 30] 0 2 = specBandMean [10, 20, 30] 0 2) ∧
    ((2 : ℕ) ≤ 0 → getAverageInRange [10, 20, 30] 0 2 = 0) ∧
    getAverageInRange [10, 20, 30] 0 0 = 0 :=
  getAverageInRange_normalized_mean [10, 20, 30] 0 2 (by decide)

set_option maxRecDepth 8000 in
/-- Claim C4: the raw energy of a 128-bin frame is the mean of all 128 bins
divided by 255 (not the sum of the three band means); on the frame whose bins
0–1 are 0 and whose other 126 bins are 255, one extraction from the all-zero
smoothed state yields `bass = 0` and `energy = 0.3·(126·255/128/255)`. -/
theorem rawEnergy_full_spectrum (frame : List ℕ) (h : frame.length = frequencyBinCount) :
    rawEnergy frame = (frame.sum : ℚ) / (frequencyBinCount : ℚ) / 255 ∧
    (analyzeAudio exampleFrame startedState).1.bass = 0 ∧
    (analyzeAudio exampleFrame startedState).1.energy = 3 / 10 * ((126 * 255 : ℚ) / 128 / 255) ∧
    rawEnergy exampleFrame ≠ rawBass exampleFrame + rawMids exampleFrame + rawHighs exampleFrame := by
  have hlen : exampleFrame.length = 128 := by decide
  have hb : rawBass exampleFrame = 0 := by
    have h0 : sumRange exampleFrame 0 2 = 0 := by decide
    norm_num [rawBass, getAverageInRange, BASS_END_BIN, h0]
  have hm : rawMids exampleFrame = 1 := by
    have h0 : sumRange exampleFrame 2 22 = 22 * 255 := by decide
    norm_num [rawMids, getAverageInRange, BASS_END_BIN, MIDS_END_BIN, h0]
  have hh : rawHighs exampleFrame = 1 := by
    have h0 : sumRange exampleFrame 24 104 = 104 * 255 := by decide
    norm_num [rawHighs, getAverageInRange, MIDS_END_BIN, hlen, h0]
  have he : rawEnergy exampleFrame = 63 / 64 := by
    have h0 : sumRange exampleFrame 0 128 = 126 * 255 := by decide
    norm_num [rawEnergy, hlen, h0]
  refine ⟨?_, ?_, ?_, ?_⟩
  · unfold rawEnergy
    rw [sumRange_all, h]
  · simp [analyzeAudio, startedState, hb, smooth, SMOOTHING_ALPHA]
  · rw [show (analyzeAudio exampleFrame startedState).1.energy
        = smooth (rawEnergy exampleFrame) 0 by simp [analyzeAudio, startedState]]
    rw [he]
    unfold smooth SMOOTHING_ALPHA
    norm_num
  · rw [he, hb, hm, hh]
    norm_num

set_option maxRecDepth 8000 in
/-- Witness for C4 at the concrete frame. -/
theorem rawEnergy_full_spectrum_witness :
    rawEnergy exampleFrame = (exampleFrame.sum : ℚ) / (frequencyBinCount : ℚ) / 255 ∧
    (analyzeAudio exampleFrame startedState).1.bass = 0 ∧
    (analyzeAudio exampleFrame startedState).1.energy = 3 / 10 * ((126 * 255 : ℚ) / 128 / 255) ∧
    rawEnergy exampleFrame ≠ rawBass exampleFrame + rawMids exampleFrame + rawHighs exampleFrame :=
  rawEnergy_full_spectrum exampleFrame (by decide)

/-- Claim C5: with `fftSize = 256` the frame has 128 bins, and the three band
ranges bass `[0,2)`, mids `[2,24)`, highs `[24,128)` cover every bin exactly
once: their union is all of `0..127` and they are pairwise disjoint. -/
theorem band_ranges_partition :
    BASS_END_BIN = 2 ∧ MIDS_END_BIN = 24 ∧ frequencyBinCount = 128 ∧
    Finset.Ico 0 BASS_END_BIN ∪ Finset.Ico BASS_END_BIN MIDS_END_BIN ∪
        Finset.Ico MIDS_END_BIN frequencyBinCount = Finset.range frequencyBinCount ∧
    Disjoint (Finset.Ico 0 BASS_END_BIN) (Finset.Ico BASS_END_BIN MIDS_END_BIN) ∧
    Disjoint (Finset.Ico 0 BASS_END_BIN) (Finset.Ico MIDS_END_BIN frequencyBinCount) ∧
    Disjoint (Finset.Ico BASS_END_BIN MIDS_END_BIN) (Finset.Ico MIDS_END_BIN frequencyBinCount) := by
  refine ⟨rfl, rfl, rfl, ?_, ?_, ?_, ?_⟩
  · rw [Finset.Ico_union_Ico_eq_Ico (by norm_num [BASS_END_BIN])
        (by norm_num [BASS_END_BIN, MIDS_END_BIN]),
      Finset.Ico_union_Ico_eq_Ico (by norm_num [MIDS_END_BIN])
        (by norm_num [MIDS_END_BIN, frequencyBinCount, fftSize]),
      Finset.range_eq_Ico]
  · exact Finset.Ico_disjoint_Ico_consecutive 0 BASS_END_BIN MIDS_END_BIN
  · rw [Finset.disjoint_left]
    intro a ha hb
    rw [Finset.mem_Ico] at ha hb
    have : BASS_END_BIN ≤ MIDS_END_BIN := by norm_num [BASS_END_BIN, MIDS_END_BIN]
    omega
  · exact Finset.Ico_disjoint_Ico_consecutive BASS_END_BIN MIDS_END_BIN frequencyBinCount

/-- Claim C6: when the analyser node or the frequency buffer is absent,
`analyzeAudio` returns the neutral value `{0,0,0,0}` and leaves the state
untouched; being a total function it signals no error. -/
theorem analyzeAudio_unbound_neutral (frame : List ℕ) (s : OffscreenState)
    (h : s.hasAnalyser = false ∨ s.hasFrequencyData = false) :
    (analyzeAudio frame s).1 = ⟨0, 0, 0, 0⟩ ∧ (analyzeAudio frame s).2 = s := by
  unfold analyzeAudio
  rcases h with h | h <;> simp [h]

/-- Witness for C6 at the initial (unbound) state. -/
theorem analyzeAudio_unbound_neutral_witness :
    (analyzeAudio [1, 2, 3] initOffscreenState).1 = ⟨0, 0, 0, 0⟩ ∧
      (analyzeAudio [1, 2, 3] initOffscreenState).2 = initOffscreenState :=
  analyzeAudio_unbound_neutral [1, 2, 3] initOffscreenState (Or.inl rfl)

/-- Claim C7: the stop operation (`stopAudioDataStream` then
`stopAudioStream`, as the `STOP_AUDIO_STREAM` handler runs them) is
idempotent from any state, and its result has all four smoothed values reset
to 0, no bound media stream, source node, analyser node, audio context or
frequency buffer, and no scheduled tick. -/
theorem stop_idempotent_and_resets (s : OffscreenState) :
    stopAll (stopAll s) = stopAll s ∧
    (stopAll s).smoothedBass = 0 ∧ (stopAll s).smoothedMids = 0 ∧
    (stopAll s).smoothedHighs = 0 ∧ (stopAll s).smoothedEnergy = 0 ∧
    (stopAll s).hasMediaStream = false ∧ (stopAll s).hasSourceNode = false ∧
    (stopAll s).hasAnalyser = false ∧ (stopAll s).hasAudioContext = false ∧
    (stopAll s).hasFrequencyData = false ∧ (stopAll s).hasInterval = false :=
  ⟨rfl, rfl, rfl, rfl, rfl, rfl, rfl, rfl, rfl, rfl, rfl⟩

/-- Counterexample to the tick count of C8: starting from 0 with constant input 1,
the smoothed value is still farther than `1e-6` from 1 after 30 ticks (the
error is `0.7^30 ≈ 2.25e-5`), and even after 38 ticks. -/
theorem smoothing_not_within_tolerance_at_thirty :
    (1 : ℚ) / 1000000 < |smoothIter 1 0 30 - 1| ∧
      (1 : ℚ) / 1000000 < |smoothIter 1 0 38 - 1| := by
  rw [smoothIter_one_zero 30, smoothIter_one_zero 38,
    show (1 - (7 / 10 : ℚ) ^ 30 - 1) = -((7 / 10) ^ 30) by ring,
    show (1 - (7 / 10 : ℚ) ^ 38 - 1) = -((7 / 10) ^ 38) by ring,
    abs_neg, abs_neg, abs_of_nonneg (by positivity), abs_of_nonneg (by positivity)]
  constructor <;> norm_num

/-- Claim C8 (amended): under repeated constant input `r ∈ [0,1]` the
smoothed sequence moves monotonically toward `r` from any start in `[0,1]`,
with error exactly `0.7^n·(r − s0)` after `n` ticks, hence converges to `r`;
starting from 0 with `r = 1` it is within `1e-6` of `r` from tick 39 on
(not after ~30 ticks). -/
theorem smoothIter_monotone_convergence (r s0 : ℚ) (n : ℕ)
    (hr : inUnit r) (hs : inUnit s0) :
    r - smoothIter r s0 n = (7 / 10) ^ n * (r - s0) ∧
    (s0 ≤ r → smoothIter r s0 n ≤ smoothIter r s0 (n + 1) ∧ smoothIter r s0 n ≤ r) ∧
    (r ≤ s0 → smoothIter r s0 (n + 1) ≤ smoothIter r s0 n ∧ r ≤ smoothIter r s0 n) ∧
    (∀ ε : ℚ, 0 < ε → ∃ N, ∀ m, N ≤ m → |smoothIter r s0 m - r| < ε) ∧
    (∀ m, 39 ≤ m → |smoothIter 1 0 m - 1| < 1 / 1000000) := by
  have e1 := smoothIter_error r s0 n
  have e2 := smoothIter_error r s0 (n + 1)
  rw [pow_succ] at e2
  have hp : (0 : ℚ) ≤ (7 / 10) ^ n := by positivity
  refine ⟨e1, ?_, ?_, ?_, ?_⟩
  · intro hle
    have hq : 0 ≤ (7 / 10 : ℚ) ^ n * (r - s0) := mul_nonneg hp (by linarith)
    constructor <;> nlinarith [e1, e2]
  · intro hle
    have hq : (7 / 10 : ℚ) ^ n * (r - s0) ≤ 0 :=
      mul_nonpos_iff.mpr (Or.inl ⟨hp, by linarith⟩)
    constructor <;> nlinarith [e1, e2]
  · intro ε hε
    obtain ⟨N, hN⟩ := exists_pow_lt_of_lt_one hε (show (7 / 10 : ℚ) < 1 by norm_num)
    refine ⟨N, fun m hm => ?_⟩
    have em := smoothIter_error r s0 m
    have habs : |smoothIter r s0 m - r| = (7 / 10) ^ m * |r - s0| := by
      rw [abs_sub_comm, em, abs_mul, abs_of_nonneg (by positivity)]
    have hd : |r - s0| ≤ 1 := by
      obtain ⟨hr0, hr1⟩ := hr
      obtain ⟨hs0, hs1⟩ := hs
      rw [abs_le]
      constructor <;> linarith
    have hmono : ((7 : ℚ) / 10) ^ m ≤ (7 / 10) ^ N :=
      pow_le_pow_of_le_one (by norm_num) (by norm_num) hm
    have hppos : (0 : ℚ) ≤ (7 / 10) ^ m := by positivity
    calc |smoothIter r s0 m - r| = (7 / 10) ^ m * |r - s0| := habs
      _ ≤ (7 / 10) ^ m * 1 := by
          exact mul_le_mul_of_nonneg_left hd hppos
      _ = (7 / 10) ^ m := mul_one _
      _ ≤ (7 / 10) ^ N := hmono
      _ < ε := hN
  · intro m hm
    rw [smoothIter_one_zero m,
      show (1 - (7 / 10 : ℚ) ^ m - 1) = -((7 / 10) ^ m) by ring,
      abs_neg, abs_of_nonneg (by positivity)]
    have hmono : ((7 : ℚ) / 10) ^ m ≤ (7 / 10) ^ 39 :=
      pow_le_pow_of_le_one (by norm_num) (by norm_num) hm
    have : ((7 : ℚ) / 10) ^ 39 < 1 / 1000000 := by norm_num
    linarith

/-- Witness for C8 (amended) at `r = 1`, `s0 = 0`, `n = 0`. -/
theorem smoothIter_monotone_convergence_witness :
    (1 : ℚ) - smoothIter 1 0 0 = (7 / 10) ^ 0 * (1 - 0) ∧
    ((0 : ℚ) ≤ 1 → smoothIter 1 0 0 ≤ smoothIter 1 0 (0 + 1) ∧ smoothIter 1 0 0 ≤ 1) ∧
    ((1 : ℚ) ≤ 0 → smoothIter 1 0 (0 + 1) ≤ smoothIter 1 0 0 ∧ (1 : ℚ) ≤ smoothIter 1 0 0) ∧
    (∀ ε : ℚ, 0 < ε → ∃ N, ∀ m, N ≤ m → |smoothIter 1 0 m - 1| < ε) ∧
    (∀ m, 39 ≤ m → |smoothIter 1 0 m - 1| < 1 / 1000000) :=
  smoothIter_monotone_convergence 1 0 0 (by decide) (by decide)

/-- Claim C9: `startCapture` while a session is active routes through
`stopCapture` (the previous session is fully torn down before the new bind),
and in every worker state reachable from the initial state by start and stop
requests there is at most one live binding to the audio source and no leaked
binding. -/
theorem capture_stop_before_start (es : List CaptureEvent) (s : CaptureSystem)
    (h : s.isCapturing = true) :
    startCapture s = { bindSource (stopCapture s) with isCapturing := true } ∧
    liveBindings (runCapture es) ≤ 1 ∧ (runCapture es).leaked = 0 := by
  refine ⟨?_, ?_, (runCapture_inv es).1⟩
  · simp [startCapture, h]
  · obtain ⟨hleak, -⟩ := runCapture_inv es
    unfold liveBindings
    rw [hleak]
    by_cases hb : (runCapture es).bound <;> simp [hb]

/-- Witness for C9 at a concrete capturing state and request list. -/
theorem capture_stop_before_start_witness :
    startCapture ⟨true, true, 0⟩
        = { bindSource (stopCapture ⟨true, true, 0⟩) with isCapturing := true } ∧
    liveBindings (runCapture [CaptureEvent.startReq true, CaptureEvent.stopReq,
        CaptureEvent.startReq true]) ≤ 1 ∧
    (runCapture [CaptureEvent.startReq true, CaptureEvent.stopReq,
        CaptureEvent.startReq true]).leaked = 0 :=
  capture_stop_before_start
    [CaptureEvent.startReq true, CaptureEvent.stopReq, CaptureEvent.startReq true]
    ⟨true, true, 0⟩ rfl

set_option maxRecDepth 8000 in
/-- Claim C10: the frequency buffer is allocated with
`frequencyBinCount = fftSize / 2 = 128` entries, and every buffer index read
by the band loops and the energy loop of `analyzeAudio` is below that length, so no
read is out of bounds. -/
theorem frequency_reads_in_bounds :
    frequencyBinCount = 128 ∧ MIDS_END_BIN ≤ frequencyBinCount ∧
      ∀ i ∈ accessedIndices, i < frequencyBinCount := by
  refine ⟨rfl, by decide, ?_⟩
  decide

set_option maxRecDepth 8000 in
/-- Witness for C10 at index 0. -/
theorem frequency_reads_in_bounds_witness : (0 : ℕ) < frequencyBinCount :=
  frequency_reads_in_bounds.2.2 0 (by decide)

end PulseSynth
